import Mathlib

/-!
Verification of the pediatric dose-calculator core (`src/main.py`).

The embedding models Python strings as `String`/`List Char`, Python floats as
`ℚ` (the program only ever performs field arithmetic on its inputs; the one
square root, in the BSA estimator, is modelled over `ℝ`), and Python `None`
as `Option`.  Character classes (`str.isdigit`, `str.lower`, `str.strip`,
`str.upper`) are modelled for the ASCII range plus the Turkish letters that
actually occur in the data; this is the range the program's data and the
spec's examples exercise.
-/

namespace Doz

/-- The ten ASCII digit characters; `str.isdigit` for this range. -/
def digitChars : List Char := ['0', '1', '2', '3', '4', '5', '6', '7', '8', '9']

/-- Python `ch.isdigit()` (ASCII range). -/
def pyIsDigit (c : Char) : Bool := digitChars.contains c

/-- ASCII upper/lower case pairs, as used by Python `str.lower` / `str.upper`. -/
def caseTable : List (Char × Char) :=
  [('A', 'a'), ('B', 'b'), ('C', 'c'), ('D', 'd'), ('E', 'e'), ('F', 'f'),
   ('G', 'g'), ('H', 'h'), ('I', 'i'), ('J', 'j'), ('K', 'k'), ('L', 'l'),
   ('M', 'm'), ('N', 'n'), ('O', 'o'), ('P', 'p'), ('Q', 'q'), ('R', 'r'),
   ('S', 's'), ('T', 't'), ('U', 'u'), ('V', 'v'), ('W', 'w'), ('X', 'x'),
   ('Y', 'y'), ('Z', 'z')]

/-- Python `str.lower` on one character (ASCII range). -/
def pyLowerChar (c : Char) : Char :=
  match caseTable.find? (fun p => p.1 == c) with
  | some p => p.2
  | none => c

/-- Python `str.upper` on one character (ASCII range). -/
def pyUpperChar (c : Char) : Char :=
  match caseTable.find? (fun p => p.2 == c) with
  | some p => p.1
  | none => c

/-- The whitespace characters stripped by Python `str.strip()` (ASCII range). -/
def pySpaceChars : List Char := [' ', '\t', '\n', '\x0d', '\x0b', '\x0c']

def pyIsSpace (c : Char) : Bool := pySpaceChars.contains c

/-- Python `str.strip()`: drop leading and trailing whitespace. -/
def pyStripList (l : List Char) : List Char :=
  ((l.dropWhile pyIsSpace).reverse.dropWhile pyIsSpace).reverse

/-- Python `str.lower` (ASCII range). -/
def pyLower (s : String) : String := String.mk (s.data.map pyLowerChar)

/-- Python `str.upper` (ASCII range). -/
def pyUpper (s : String) : String := String.mk (s.data.map pyUpperChar)

/-- `freq.strip().lower().replace(" ", "")` — the normalization performed at
the top of `parse_frequency_to_doses_per_day` (main.py line 17). -/
def normalizeFreq (l : List Char) : List Char :=
  ((pyStripList l).map pyLowerChar).filter (fun c => c != ' ')

/-- Python `float("".join(digits))` for a string of digit characters:
the denoted natural number. -/
def digitsToNat (l : List Char) : Nat :=
  l.foldl (fun a c => a * 10 + (c.toNat - 48)) 0

/-- The body of `parse_frequency_to_doses_per_day` (main.py lines 18–29),
after normalization:
* a string starting with "günde" yields the number formed by all digit
  characters of the string, or `none` if there is no digit;
* "od" and "q24h" yield 1.0;
* "q<N>h" with `N` a nonempty digit string and `int(N) > 0` yields `24/N`;
* everything else yields `none`. -/
def parseCore (f : List Char) : Option ℚ :=
  if "günde".data.isPrefixOf f then
    let num := f.filter pyIsDigit
    if num = [] then none else some ((digitsToNat num : ℚ))
  else if f = "od".data ∨ f = "q24h".data then some 1
  else
    match f with
    | [] => none
    | c :: rest =>
      if c = 'q' ∧ rest.getLast? = some 'h' then
        let num := rest.dropLast
        if num ≠ [] ∧ num.all pyIsDigit then
          if 0 < digitsToNat num then some (24 / (digitsToNat num : ℚ))
          else none
        else none
      else none

/-- `parse_frequency_to_doses_per_day` (main.py lines 16–29). -/
def parse_frequency_to_doses_per_day (s : String) : Option ℚ :=
  parseCore (normalizeFreq s.data)

/-- `mosteller_bsa_m2` (main.py lines 31–32): `sqrt((height_cm * weight_kg) / 3600.0)`. -/
noncomputable def mosteller_bsa_m2 (weight_kg height_cm : ℝ) : ℝ :=
  Real.sqrt ((height_cm * weight_kg) / 3600)

/-- The Turkish-diacritic translation table of `normalize_text` (main.py line 36). -/
def trChar (c : Char) : Char :=
  if c = 'ı' then 'i'
  else if c = 'ş' then 's'
  else if c = 'ğ' then 'g'
  else if c = 'ü' then 'u'
  else if c = 'ö' then 'o'
  else if c = 'ç' then 'c'
  else c

/-- `" ".join(s.split())`: split on whitespace runs, dropping empty pieces.
`cur` accumulates the current word in reverse. -/
def wordsAux : List Char → List Char → List (List Char)
  | [], cur => if cur = [] then [] else [cur.reverse]
  | c :: t, cur =>
    if pyIsSpace c then
      if cur = [] then wordsAux t [] else cur.reverse :: wordsAux t []
    else wordsAux t (c :: cur)

/-- `normalize_text` (main.py lines 34–39): strip, lower, fold Turkish
diacritics to ASCII, collapse whitespace runs to single spaces. -/
def normalize_text (s : String) : String :=
  let l := ((pyStripList s.data).map pyLowerChar).map trChar
  String.intercalate " " ((wordsAux l []).map String.mk)

/-- `DoseRule` (main.py lines 45–56). -/
structure DoseRule where
  indication : String
  route : String
  frequency : String
  mg_per_kg_per_day : Option ℚ := none
  mg_per_kg_per_dose : Option ℚ := none
  mg_per_m2_per_day : Option ℚ := none
  mg_per_m2_per_dose : Option ℚ := none
  max_mg_per_day : Option ℚ := none
  max_mg_per_dose : Option ℚ := none
  notes : String := ""
deriving DecidableEq

/-- `DoseRule.doses_per_day` (main.py lines 58–59). -/
def DoseRule.doses_per_day (r : DoseRule) : Option ℚ :=
  parse_frequency_to_doses_per_day r.frequency

/-- `DoseRule.needs_bsa` (main.py lines 61–62). -/
def DoseRule.needs_bsa (r : DoseRule) : Bool :=
  r.mg_per_m2_per_day.isSome || r.mg_per_m2_per_dose.isSome

/-- Rendering of a rate value inside an f-string.  The seeded catalog stores
integer rates, which Python renders without a decimal point. -/
def fmtNum (q : ℚ) : String :=
  if q.den = 1 then toString q.num else toString q

/-- `DoseRule.describe` (main.py lines 64–72).  Note the source renders only
three of the four dosing-basis fields (mg/m²/dose is omitted). -/
def DoseRule.describe (r : DoseRule) : String :=
  let parts :=
    (match r.mg_per_kg_per_day with
      | some v => [fmtNum v ++ " mg/kg/gün"]
      | none => [])
    ++ (match r.mg_per_kg_per_dose with
      | some v => [fmtNum v ++ " mg/kg/doz"]
      | none => [])
    ++ (match r.mg_per_m2_per_day with
      | some v => [fmtNum v ++ " mg/m²/gün"]
      | none => [])
  String.intercalate " / " parts ++ ", " ++ r.route ++ ", " ++ r.frequency

/-- `Drug` (main.py lines 74–86): a name plus rules in registration order. -/
structure Drug where
  name : String
  rules : List DoseRule
deriving DecidableEq

/-- `Drug.add_rule` (main.py lines 79–80). -/
def Drug.add_rule (d : Drug) (r : DoseRule) : Drug :=
  { d with rules := d.rules ++ [r] }

/-- One step of `dict.setdefault(key, []).append(r)`: append `r` to the
group with key `key` when present (in place, order preserved), else add a new
group at the end. -/
def groupInsert (key : String) (r : DoseRule) :
    List (String × List DoseRule) → List (String × List DoseRule)
  | [] => [(key, [r])]
  | (k, rs) :: t =>
    if k = key then (k, rs ++ [r]) :: t else (k, rs) :: groupInsert key r t

/-- The loop of `Drug.rules_by_indication` (main.py lines 82–86). -/
def groupRules : List DoseRule → List (String × List DoseRule) →
    List (String × List DoseRule)
  | [], acc => acc
  | r :: rest, acc => groupRules rest (groupInsert r.indication r acc)

/-- `Drug.rules_by_indication` (main.py lines 82–86): a Python dict keeps
insertion order, so the result is an ordered association list. -/
def Drug.rules_by_indication (d : Drug) : List (String × List DoseRule) :=
  groupRules d.rules []

/-- `Patient` (main.py lines 88–95). -/
structure Patient where
  weight_kg : ℚ
  height_cm : Option ℚ := none
deriving DecidableEq

/-- `Patient.bsa_weight_only_m2` (main.py lines 93–95). -/
def Patient.bsa_weight_only_m2 (p : Patient) : ℚ :=
  ((p.weight_kg * 4) + 7) / (p.weight_kg + 90)

/-- Python's `f"{x:.0f}"` rounding: nearest integer, ties to even. -/
def roundHalfEven (q : ℚ) : ℤ :=
  let fl := ⌊q⌋
  if q - (fl : ℚ) < 1/2 then fl
  else if 1/2 < q - (fl : ℚ) then fl + 1
  else if fl % 2 = 0 then fl else fl + 1

/-- Python's `f"{x:.0f}"`: round to nearest whole number, then print. -/
def fmt0 (q : ℚ) : String := toString (roundHalfEven q)

/-- The numeric part of `calc_rule` (main.py lines 101–109): the pair
`(mg_dose, mg_day)` when the `mg/kg/day` branch fires, `none` otherwise.
Python truthiness: `if r.mg_per_kg_per_day:` is false for `None` and for `0`,
and `mg_day / dpd if dpd else mg_day` falls back when `dpd` is `None` or `0`. -/
def dose_quantities (r : DoseRule) (pt : Patient) : Option (ℚ × ℚ) :=
  let dpd := r.doses_per_day
  match r.mg_per_kg_per_day with
  | none => none
  | some rate =>
    if rate = 0 then none
    else
      let mg_day := rate * pt.weight_kg
      let mg_dose :=
        match dpd with
        | some d => if d = 0 then mg_day else mg_day / d
        | none => mg_day
      some (mg_dose, mg_day)

/-- `calc_rule` (main.py lines 101–109): the emitted lines. -/
def calc_rule (r : DoseRule) (pt : Patient) : List String :=
  match dose_quantities r pt with
  | none => []
  | some (mg_dose, mg_day) =>
    ["→ " ++ fmt0 mg_dose ++ " mg/doz", "→ " ++ fmt0 mg_day ++ " mg/gün"]

/-- `dict[key] = value` on an ordered association list with unique keys:
overwrite in place, else append. -/
def dictSet (k : String) (v : Drug) :
    List (String × Drug) → List (String × Drug)
  | [] => [(k, v)]
  | (k', v') :: t => if k' = k then (k, v) :: t else (k', v') :: dictSet k v t

/-- `dict.get(key)` on an ordered association list. -/
def dictGet (reg : List (String × Drug)) (k : String) : Option Drug :=
  (reg.find? (fun p => p.1 == k)).map Prod.snd

/-- `register` (main.py lines 117–118): key the drug by its lower-cased name. -/
def register (d : Drug) (reg : List (String × Drug)) : List (String × Drug) :=
  dictSet (pyLower d.name) d reg

/-- The lookup performed by `compute_text` (main.py line 131):
`REGISTRY.get(drug_query.lower())`. -/
def registry_lookup (reg : List (String × Drug)) (q : String) : Option Drug :=
  dictGet reg (pyLower q)

/-- The seeded catalog entry (main.py lines 120–122). -/
def amp : Drug :=
  ((Drug.mk "Ampisilin Sulbaktam" []).add_rule
      { indication := "genel", route := "IV", frequency := "q6h",
        mg_per_kg_per_day := some 100 }).add_rule
    { indication := "genel", route := "IV", frequency := "q6h",
      mg_per_kg_per_day := some 200 }

/-- `REGISTRY` after startup registration (main.py lines 115–123). -/
def REGISTRY : List (String × Drug) := register amp []

/-- `l.flatMap f` written out, used to flatten the report's nested loops. -/
def concatMap (f : α → List β) : List α → List β
  | [] => []
  | a :: t => f a ++ concatMap f t

/-- The `lines` list built by `compute_text` (main.py lines 135–144) for a
drug that was found.  The patient is `Patient(weight)` (height `None`). -/
def compute_lines (drug : Drug) (w : ℚ) : List String :=
  ["İLAÇ: " ++ drug.name, "Kilo: " ++ fmtNum w ++ " kg"]
  ++ concatMap (fun g =>
      ("\n" ++ pyUpper g.1 ++ ":")
      :: concatMap (fun r =>
          ("  " ++ r.describe)
          :: (calc_rule r (Patient.mk w none)).map (fun x => "   " ++ x)) g.2)
    drug.rules_by_indication

/-- `compute_text` (main.py lines 129–146), parameterized by the registry. -/
def compute_text_reg (reg : List (String × Drug)) (w : ℚ) (q : String) :
    String :=
  match registry_lookup reg q with
  | none => "İlaç bulunamadı."
  | some drug => String.intercalate "\n" (compute_lines drug w)

/-- `compute_text` (main.py lines 129–146) against the seeded `REGISTRY`. -/
def compute_text (w : ℚ) (q : String) : String :=
  compute_text_reg REGISTRY w q

/-- First-seen order of a list of keys: the specification of the key order a
Python dict produces under repeated `setdefault`. -/
def firstSeenAux : List String → List String → List String
  | [], ks => ks
  | i :: rest, ks => firstSeenAux rest (if i ∈ ks then ks else ks ++ [i])

def firstSeen (l : List String) : List String := firstSeenAux l []

/-- A rule shaped like the seeded 100 mg/kg/day entry, used as witness data. -/
def c1Rule : DoseRule :=
  { indication := "genel", route := "IV", frequency := "q6h",
    mg_per_kg_per_day := some 100 }

/-- A rule with an unparseable frequency, used as witness data. -/
def c3Rule : DoseRule :=
  { indication := "genel", route := "PO", frequency := "bid",
    mg_per_kg_per_day := some 100 }

/-- The two-rule, one-indication drug from the spec's multi-rule scenario. -/
def c5Drug : Drug :=
  ((Drug.mk "X" []).add_rule
      { indication := "general", route := "IV", frequency := "q6h",
        mg_per_kg_per_day := some 100 }).add_rule
    { indication := "general", route := "IV", frequency := "q6h",
      mg_per_kg_per_day := some 200 }

/-- A rule with none of the four dosing-basis fields set, and a drug
carrying only that rule, used as witness data. -/
def c8Rule : DoseRule :=
  { indication := "genel", route := "IV", frequency := "q6h" }

def c8Drug : Drug := (Drug.mk "Bos" []).add_rule c8Rule

example : parse_frequency_to_doses_per_day "q6h" = some 4 := by with_unfolding_all decide
example : parse_frequency_to_doses_per_day "q8h" = some 3 := by with_unfolding_all decide
example : parse_frequency_to_doses_per_day "od" = some 1 := by with_unfolding_all decide
example : parse_frequency_to_doses_per_day "q24h" = some 1 := by with_unfolding_all decide
example : parse_frequency_to_doses_per_day "günde3" = some 3 := by with_unfolding_all decide
example : parse_frequency_to_doses_per_day "q0h" = none := by with_unfolding_all decide
example : parse_frequency_to_doses_per_day "bid" = none := by with_unfolding_all decide
example : parse_frequency_to_doses_per_day "günde 2 x 3" = some 23 := by with_unfolding_all decide
example : parse_frequency_to_doses_per_day " Q6H " = some 4 := by with_unfolding_all decide

example : compute_text 10 "ampisilin sulbaktam" =
    "İLAÇ: Ampisilin Sulbaktam\nKilo: 10 kg\n\nGENEL:" ++
    "\n  100 mg/kg/gün, IV, q6h\n   → 250 mg/doz\n   → 1000 mg/gün" ++
    "\n  200 mg/kg/gün, IV, q6h\n   → 500 mg/doz\n   → 2000 mg/gün" := by
  with_unfolding_all decide

example : compute_text 10 "nonexistent-drug" = "İlaç bulunamadı." := by
  with_unfolding_all decide

lemma dropWhileSelf {p : Char → Bool} {l : List Char}
    (h : ∀ c ∈ l, p c = false) : l.dropWhile p = l := by
  cases l with
  | nil => rfl
  | cons a t => simp [List.dropWhile_cons, h a (List.mem_cons_self a t)]

lemma mapSelf {f : Char → Char} {l : List Char}
    (h : ∀ c ∈ l, f c = c) : l.map f = l := by
  induction l with
  | nil => rfl
  | cons a t ih =>
    simp only [List.map_cons, h a (List.mem_cons_self a t)]
    rw [ih (fun c hc => h c (List.mem_cons_of_mem a hc))]

lemma pyStripSelf {l : List Char} (h : ∀ c ∈ l, pyIsSpace c = false) :
    pyStripList l = l := by
  unfold pyStripList
  rw [dropWhileSelf h,
    dropWhileSelf (fun c hc => h c (List.mem_reverse.mp hc)),
    List.reverse_reverse]

lemma normalizeFreqSelf {l : List Char}
    (h : ∀ c ∈ l, pyIsSpace c = false ∧ pyLowerChar c = c ∧ (c != ' ') = true) :
    normalizeFreq l = l := by
  unfold normalizeFreq
  rw [pyStripSelf (fun c hc => (h c hc).1),
    mapSelf (fun c hc => (h c hc).2.1),
    List.filter_eq_self.mpr (fun c hc => (h c hc).2.2)]

lemma mem_of_pyIsDigit {c : Char} (h : pyIsDigit c = true) : c ∈ digitChars := by
  simpa [pyIsDigit, List.contains] using h

lemma digitProps {c : Char} (h : c ∈ digitChars) :
    pyIsSpace c = false ∧ pyLowerChar c = c ∧ (c != ' ') = true ∧
    pyIsDigit c = true := by
  fin_cases h <;> decide

lemma isPrefixOf_append_self (l t : List Char) : l.isPrefixOf (l ++ t) = true := by
  induction l with
  | nil => simp [List.isPrefixOf]
  | cons a t ih => simp [List.isPrefixOf, ih]

/-- `parse_frequency_to_doses_per_day` on "q<digits>h" with a positive value:
`24 / N`. -/
lemma parse_qNh_general (ds : List Char) (h1 : ds ≠ [])
    (h2 : ∀ c ∈ ds, c ∈ digitChars) (h3 : 0 < digitsToNat ds) :
    parse_frequency_to_doses_per_day (String.mk ('q' :: (ds ++ ['h']))) =
      some (24 / (digitsToNat ds : ℚ)) := by
  by_cases hds : ds = ['2', '4']
  · subst hds
    with_unfolding_all decide
  have hchars : ∀ c ∈ 'q' :: (ds ++ ['h']),
      pyIsSpace c = false ∧ pyLowerChar c = c ∧ (c != ' ') = true := by
    intro c hc
    rcases List.mem_cons.mp hc with rfl | hc
    · exact ⟨rfl, rfl, rfl⟩
    rcases List.mem_append.mp hc with hc | hc
    · have hp := digitProps (h2 c hc)
      exact ⟨hp.1, hp.2.1, hp.2.2.1⟩
    · rcases List.mem_singleton.mp hc with rfl
      exact ⟨rfl, rfl, rfl⟩
  have hgq : (('g' : Char) == 'q') = false := by decide
  have hpre : "günde".data.isPrefixOf ('q' :: (ds ++ ['h'])) = false := by
    rw [show "günde".data = 'g' :: ['ü', 'n', 'd', 'e'] from rfl]
    simp [List.isPrefixOf, hgq]
  have hne : ¬('q' :: (ds ++ ['h']) = "od".data ∨
      'q' :: (ds ++ ['h']) = "q24h".data) := by
    rintro (hod | hq24)
    · rw [show "od".data = ['o', 'd'] from rfl] at hod
      exact absurd (List.head_eq_of_cons_eq hod) (by decide)
    · rw [show "q24h".data = 'q' :: (['2', '4'] ++ ['h']) from rfl] at hq24
      have := List.tail_eq_of_cons_eq hq24
      exact hds (List.append_cancel_right this)
  have hlast : (ds ++ ['h']).getLast? = some 'h' := List.getLast?_concat ds
  have hall : ds.all pyIsDigit = true :=
    List.all_eq_true.mpr (fun c hc => (digitProps (h2 c hc)).2.2.2)
  unfold parse_frequency_to_doses_per_day
  rw [show (String.mk ('q' :: (ds ++ ['h']))).data = 'q' :: (ds ++ ['h'])
    from rfl]
  rw [normalizeFreqSelf hchars]
  unfold parseCore
  rw [hpre]
  simp only [Bool.false_eq_true, if_false, if_neg hne]
  rw [if_pos ⟨by trivial, hlast⟩, List.dropLast_concat]
  rw [if_pos ⟨h1, hall⟩]
  rw [if_pos h3]

/-- `parse_frequency_to_doses_per_day` on "günde<digits>": the denoted count. -/
lemma parse_gunde_append (ds : List Char) (h1 : ds ≠ [])
    (h2 : ∀ c ∈ ds, c ∈ digitChars) :
    parse_frequency_to_doses_per_day (String.mk ("günde".data ++ ds)) =
      some ((digitsToNat ds : ℚ)) := by
  have hchars : ∀ c ∈ "günde".data ++ ds,
      pyIsSpace c = false ∧ pyLowerChar c = c ∧ (c != ' ') = true := by
    intro c hc
    rcases List.mem_append.mp hc with hc | hc
    · rw [show "günde".data = ['g', 'ü', 'n', 'd', 'e'] from rfl] at hc
      fin_cases hc <;> exact ⟨rfl, rfl, rfl⟩
    · have hp := digitProps (h2 c hc)
      exact ⟨hp.1, hp.2.1, hp.2.2.1⟩
  have hfilter : ("günde".data ++ ds).filter pyIsDigit = ds := by
    rw [List.filter_append,
      show "günde".data.filter pyIsDigit = [] from by decide,
      List.filter_eq_self.mpr (fun c hc => (digitProps (h2 c hc)).2.2.2),
      List.nil_append]
  unfold parse_frequency_to_doses_per_day
  rw [show (String.mk ("günde".data ++ ds)).data = "günde".data ++ ds from rfl]
  rw [normalizeFreqSelf hchars]
  unfold parseCore
  rw [isPrefixOf_append_self]
  simp only [if_true]
  rw [hfilter, if_neg h1]

lemma space_not_digit (c : Char) (h : pyIsSpace c = true) :
    pyIsDigit c = false := by
  have hmem : c ∈ pySpaceChars := by
    simpa [pyIsSpace, List.contains] using h
  fin_cases hmem <;> decide

lemma caseTableProps : ∀ q ∈ caseTable,
    pyIsDigit q.1 = false ∧ pyIsDigit q.2 = false := by decide

lemma find_pred {β : Type} (p : β → Bool) (l : List β) (b : β)
    (hf : l.find? p = some b) : p b = true := List.find?_some hf

lemma pyLowerChar_digit_status (c : Char) :
    pyIsDigit (pyLowerChar c) = pyIsDigit c := by
  unfold pyLowerChar
  cases hf : caseTable.find? (fun q => q.1 == c) with
  | none => rfl
  | some q =>
    have hmem := List.mem_of_find?_eq_some hf
    have hbeq : (q.1 == c) = true :=
      find_pred (fun r => r.1 == c) caseTable q hf
    have hqc : q.1 = c := beq_iff_eq.mp hbeq
    rw [(caseTableProps q hmem).2, ← hqc, (caseTableProps q hmem).1]

lemma pyLowerChar_of_digit {c : Char} (h : pyIsDigit c = true) :
    pyLowerChar c = c := by
  unfold pyLowerChar
  cases hf : caseTable.find? (fun q => q.1 == c) with
  | none => rfl
  | some q =>
    have hmem := List.mem_of_find?_eq_some hf
    have hbeq : (q.1 == c) = true :=
      find_pred (fun r => r.1 == c) caseTable q hf
    have hqc : q.1 = c := beq_iff_eq.mp hbeq
    have hfalse := (caseTableProps q hmem).1
    rw [hqc, h] at hfalse
    exact absurd hfalse (by decide)

lemma filter_dropWhile {p q : Char → Bool}
    (hpq : ∀ c, q c = true → p c = false) :
    ∀ l : List Char, (l.dropWhile q).filter p = l.filter p := by
  intro l
  induction l with
  | nil => rfl
  | cons a t ih =>
    rw [List.dropWhile_cons]
    by_cases hq : q a = true
    · rw [if_pos hq, ih, List.filter_cons, hpq a hq]
      simp
    · rw [if_neg hq]

lemma filter_pyStrip {p : Char → Bool}
    (hpq : ∀ c, pyIsSpace c = true → p c = false) (l : List Char) :
    (pyStripList l).filter p = l.filter p := by
  unfold pyStripList
  rw [List.filter_reverse, filter_dropWhile hpq, List.filter_reverse,
    List.reverse_reverse, filter_dropWhile hpq]

lemma filter_map_pyLower (l : List Char) :
    (l.map pyLowerChar).filter pyIsDigit = l.filter pyIsDigit := by
  induction l with
  | nil => rfl
  | cons a t ih =>
    rw [List.map_cons, List.filter_cons, List.filter_cons,
      pyLowerChar_digit_status a]
    by_cases hd : pyIsDigit a = true
    · rw [hd, pyLowerChar_of_digit hd]
      simp only [if_true, ih]
    · rw [Bool.not_eq_true] at hd
      rw [hd]
      simp only [Bool.false_eq_true, if_false, ih]

lemma filter_digits_normalizeFreq (l : List Char) :
    (normalizeFreq l).filter pyIsDigit = l.filter pyIsDigit := by
  unfold normalizeFreq
  rw [List.filter_filter]
  have hcongr : ∀ a ∈ (pyStripList l).map pyLowerChar,
      (pyIsDigit a && (a != ' ')) = pyIsDigit a := by
    intro a _
    by_cases hd : pyIsDigit a = true
    · have hne : (a != ' ') = true := by
        have hm := mem_of_pyIsDigit hd
        fin_cases hm <;> decide
      rw [hd, hne]
      rfl
    · rw [Bool.not_eq_true] at hd
      rw [hd]
      rfl
  rw [List.filter_congr hcongr, filter_map_pyLower,
    filter_pyStrip space_not_digit]

/-- `parseCore` on a normalized string of the form "q<digits>h" with a
positive value: `24 / N`. -/
lemma parseCore_qNh (ds : List Char) (h1 : ds ≠ [])
    (h2 : ∀ c ∈ ds, pyIsDigit c = true) (h3 : 0 < digitsToNat ds) :
    parseCore ('q' :: (ds ++ ['h'])) = some (24 / (digitsToNat ds : ℚ)) := by
  by_cases hds : ds = ['2', '4']
  · subst hds
    with_unfolding_all decide
  have hgq : (('g' : Char) == 'q') = false := by decide
  have hpre : "günde".data.isPrefixOf ('q' :: (ds ++ ['h'])) = false := by
    rw [show "günde".data = 'g' :: ['ü', 'n', 'd', 'e'] from rfl]
    simp [List.isPrefixOf, hgq]
  have hne : ¬('q' :: (ds ++ ['h']) = "od".data ∨
      'q' :: (ds ++ ['h']) = "q24h".data) := by
    rintro (hod | hq24)
    · rw [show "od".data = ['o', 'd'] from rfl] at hod
      exact absurd (List.head_eq_of_cons_eq hod) (by decide)
    · rw [show "q24h".data = 'q' :: (['2', '4'] ++ ['h']) from rfl] at hq24
      have := List.tail_eq_of_cons_eq hq24
      exact hds (List.append_cancel_right this)
  have hlast : (ds ++ ['h']).getLast? = some 'h' := List.getLast?_concat ds
  have hall : ds.all pyIsDigit = true := List.all_eq_true.mpr h2
  unfold parseCore
  rw [hpre]
  simp only [Bool.false_eq_true, if_false, if_neg hne]
  rw [if_pos ⟨by trivial, hlast⟩, List.dropLast_concat]
  rw [if_pos ⟨h1, hall⟩]
  rw [if_pos h3]

/-- `parseCore` on a normalized string starting with "günde": the number
denoted by the digit characters found anywhere in the original string. -/
lemma parse_gunde_norm (l : List Char)
    (h : "günde".data.isPrefixOf (normalizeFreq l) = true) :
    parseCore (normalizeFreq l) =
      (if l.filter pyIsDigit = [] then none
       else some ((digitsToNat (l.filter pyIsDigit) : ℚ))) := by
  unfold parseCore
  rw [if_pos h]
  simp only [filter_digits_normalizeFreq l]

/-- Exhaustiveness of `parseCore`: a normalized string that matches none of
the three recognized forms parses to `none`. -/
lemma parseCore_none (f : List Char)
    (h1 : "günde".data.isPrefixOf f = false)
    (h2 : f ≠ "od".data)
    (h3 : ∀ ds : List Char, f = 'q' :: (ds ++ ['h']) →
      ds = [] ∨ ¬(∀ c ∈ ds, pyIsDigit c = true) ∨ digitsToNat ds = 0) :
    parseCore f = none := by
  unfold parseCore
  rw [h1]
  simp only [Bool.false_eq_true, if_false]
  have hne : ¬(f = "od".data ∨ f = "q24h".data) := by
    rintro (h | h)
    · exact h2 h
    · rcases h3 ['2', '4'] (by rw [h]; rfl) with h' | h' | h'
      · exact absurd h' (by decide)
      · exact h' (by decide)
      · exact absurd h' (by decide)
  rw [if_neg hne]
  cases f with
  | nil => rfl
  | cons c rest =>
    show (if c = 'q' ∧ rest.getLast? = some 'h' then
        if rest.dropLast ≠ [] ∧ rest.dropLast.all pyIsDigit = true then
          if 0 < digitsToNat rest.dropLast then
            some (24 / (digitsToNat rest.dropLast : ℚ))
          else none
        else none
      else none) = none
    by_cases hcond : c = 'q' ∧ rest.getLast? = some 'h'
    · obtain ⟨hc, hlast⟩ := hcond
      subst hc
      have hrne : rest ≠ [] := by
        intro he
        rw [he] at hlast
        exact absurd hlast (by decide)
      have hrest : rest.dropLast ++ ['h'] = rest := by
        have hgl := List.getLast?_eq_getLast rest hrne
        rw [hgl] at hlast
        have hlh : rest.getLast hrne = 'h' := Option.some_injective _ hlast
        rw [← hlh]
        exact List.dropLast_append_getLast hrne
      rw [if_pos ⟨by trivial, hlast⟩]
      rcases h3 rest.dropLast (by rw [hrest]) with hnil | hnall | h0
      · rw [if_neg (fun hcon => hcon.1 hnil)]
      · have hallf : rest.dropLast.all pyIsDigit = false := by
          rw [← Bool.not_eq_true, List.all_eq_true]
          exact fun hall => hnall (fun c hc => hall c hc)
        rw [if_neg (by
          intro hcon
          obtain ⟨_, hc2⟩ := hcon
          rw [hallf] at hc2
          exact absurd hc2 (by decide))]
      · by_cases hcon : rest.dropLast ≠ [] ∧ rest.dropLast.all pyIsDigit = true
        · rw [if_pos hcon, if_neg (by rw [h0]; exact lt_irrefl 0)]
        · rw [if_neg hcon]
    · rw [if_neg hcond]

/-- C1: for every rule with `mg_per_kg_per_day = 100` and frequency `"q6h"`,
and every patient of weight 10 kg, the calculation yields doses_per_day = 4,
day total 1000 mg and per-dose 250 mg, and `calc_rule` prints exactly those. -/
theorem C1_dose_roundtrip (r : DoseRule) (pt : Patient)
    (hrate : r.mg_per_kg_per_day = some 100) (hfreq : r.frequency = "q6h")
    (hw : pt.weight_kg = 10) :
    r.doses_per_day = some 4 ∧
    dose_quantities r pt = some (250, 1000) ∧
    calc_rule r pt = ["→ 250 mg/doz", "→ 1000 mg/gün"] := by
  have hd : r.doses_per_day = some 4 := by
    unfold DoseRule.doses_per_day
    rw [hfreq]
    with_unfolding_all decide
  have hq : dose_quantities r pt = some (250, 1000) := by
    simp only [dose_quantities, hd, hrate, hw]
    norm_num
  refine ⟨hd, hq, ?_⟩
  simp only [calc_rule, hq]
  with_unfolding_all decide

theorem C1_dose_roundtrip_witness :
    c1Rule.doses_per_day = some 4 ∧
    dose_quantities c1Rule (Patient.mk 10 none) = some (250, 1000) ∧
    calc_rule c1Rule (Patient.mk 10 none) = ["→ 250 mg/doz", "→ 1000 mg/gün"] :=
  C1_dose_roundtrip c1Rule (Patient.mk 10 none) rfl rfl rfl

/-- C3: when the frequency parses to nothing but `mg_per_kg_per_day` is set
(to a positive rate, per the data model), the calculation still succeeds:
the per-dose figure equals the full daily total and two lines are emitted —
the parse failure is never surfaced as an error. -/
theorem C3_unparseable_frequency_fallback (r : DoseRule) (pt : Patient)
    (rate : ℚ) (hrate : r.mg_per_kg_per_day = some rate) (hpos : 0 < rate)
    (hfreq : parse_frequency_to_doses_per_day r.frequency = none) :
    dose_quantities r pt = some (rate * pt.weight_kg, rate * pt.weight_kg) ∧
    calc_rule r pt =
      ["→ " ++ fmt0 (rate * pt.weight_kg) ++ " mg/doz",
       "→ " ++ fmt0 (rate * pt.weight_kg) ++ " mg/gün"] := by
  have hd : r.doses_per_day = none := hfreq
  have hq : dose_quantities r pt =
      some (rate * pt.weight_kg, rate * pt.weight_kg) := by
    simp only [dose_quantities, hd, hrate]
    simp [hpos.ne']
  refine ⟨hq, ?_⟩
  simp only [calc_rule, hq]

theorem C3_unparseable_frequency_fallback_witness :
    dose_quantities c3Rule (Patient.mk 10 none) = some (100 * 10, 100 * 10) ∧
    calc_rule c3Rule (Patient.mk 10 none) =
      ["→ " ++ fmt0 (100 * 10) ++ " mg/doz",
       "→ " ++ fmt0 (100 * 10) ++ " mg/gün"] :=
  C3_unparseable_frequency_fallback c3Rule (Patient.mk 10 none) 100 rfl
    (by norm_num) (by with_unfolding_all decide)

/-- C4: two rules identical except for `max_mg_per_day` / `max_mg_per_dose`
produce identical calculator output and identical descriptive lines: the
ceiling fields affect no computed quantity. -/
theorem C4_ceilings_unused (r : DoseRule) (pt : Patient)
    (m1 m2 m1' m2' : Option ℚ) :
    dose_quantities { r with max_mg_per_day := m1, max_mg_per_dose := m2 } pt =
      dose_quantities
        { r with max_mg_per_day := m1', max_mg_per_dose := m2' } pt ∧
    calc_rule { r with max_mg_per_day := m1, max_mg_per_dose := m2 } pt =
      calc_rule { r with max_mg_per_day := m1', max_mg_per_dose := m2' } pt ∧
    DoseRule.describe { r with max_mg_per_day := m1, max_mg_per_dose := m2 } =
      DoseRule.describe
        { r with max_mg_per_day := m1', max_mg_per_dose := m2' } := by
  cases r
  exact ⟨rfl, rfl, rfl⟩

/-- C9: the BSA estimator implements the two spec formulas. The Mosteller
result is characterized as the nonnegative square root of
`(height_cm * weight_kg) / 3600`; at weight 16 kg and height 100 cm it is
exactly 2/3 m² (≈ 0.667), and the weight-only surrogate is
`((w * 4) + 7) / (w + 90)`, which is 0.47 m² at 10 kg. -/
theorem C9_bsa_formulas (w h : ℝ) (wq : ℚ) (hw : 0 ≤ w) (hh : 0 ≤ h) :
    mosteller_bsa_m2 w h ^ 2 = (h * w) / 3600 ∧
    0 ≤ mosteller_bsa_m2 w h ∧
    mosteller_bsa_m2 16 100 = 2 / 3 ∧
    Patient.bsa_weight_only_m2 (Patient.mk wq none) =
      ((wq * 4) + 7) / (wq + 90) ∧
    Patient.bsa_weight_only_m2 (Patient.mk 10 none) = 47 / 100 := by
  refine ⟨?_, Real.sqrt_nonneg _, ?_, rfl, ?_⟩
  · rw [mosteller_bsa_m2, Real.sq_sqrt (by positivity)]
  · rw [mosteller_bsa_m2,
      show ((100 : ℝ) * 16) / 3600 = (2 / 3) ^ 2 by norm_num,
      Real.sqrt_sq (by norm_num)]
  · with_unfolding_all decide

theorem C9_bsa_formulas_witness :
    mosteller_bsa_m2 16 100 ^ 2 = ((100 : ℝ) * 16) / 3600 ∧
    0 ≤ mosteller_bsa_m2 16 100 ∧
    mosteller_bsa_m2 16 100 = 2 / 3 ∧
    Patient.bsa_weight_only_m2 (Patient.mk 10 none) =
      (((10 : ℚ) * 4) + 7) / (10 + 90) ∧
    Patient.bsa_weight_only_m2 (Patient.mk 10 none) = 47 / 100 :=
  C9_bsa_formulas 16 100 10 (by norm_num) (by norm_num)

/-- C7: for every positive weight and every query whose lower-casing differs
from that of the one registered name, `compute_text` returns the fixed
not-found message (and, being a total function, never throws). -/
theorem C7_not_found_message (w : ℚ) (q : String) (hw : 0 < w)
    (h : pyLower q ≠ pyLower "Ampisilin Sulbaktam") :
    compute_text w q = "İlaç bulunamadı." := by
  have hb : (pyLower amp.name == pyLower q) = false := by
    rw [show amp.name = "Ampisilin Sulbaktam" from rfl, beq_eq_false_iff_ne]
    exact fun e => h e.symm
  simp only [compute_text, compute_text_reg, registry_lookup, dictGet,
    REGISTRY, register, dictSet, List.find?, hb]
  rfl

theorem C7_not_found_message_witness :
    compute_text 10 "nonexistent-drug" = "İlaç bulunamadı." :=
  C7_not_found_message 10 "nonexistent-drug" (by norm_num)
    (by with_unfolding_all decide)

/-- C6: registry lookup is a case-insensitive exact match: lookups depend
only on the lower-cased query; any query lower-casing to the registered key
returns the registered entry; any other query misses; and the
diacritic-normalization helper is not on the lookup path — a query that
`normalize_text` would identify with the registered name (extra space) still
misses. -/
theorem C6_lookup_case_insensitive_exact (q₁ q₂ qhit qmiss : String)
    (h12 : pyLower q₁ = pyLower q₂)
    (hhit : pyLower qhit = pyLower "Ampisilin Sulbaktam")
    (hmiss : pyLower qmiss ≠ pyLower "Ampisilin Sulbaktam") :
    (∀ reg, registry_lookup reg q₁ = registry_lookup reg q₂) ∧
    registry_lookup REGISTRY qhit = some amp ∧
    registry_lookup REGISTRY qmiss = none ∧
    normalize_text "ampisilin  sulbaktam" = normalize_text "Ampisilin Sulbaktam" ∧
    registry_lookup REGISTRY "ampisilin  sulbaktam" = none := by
  refine ⟨fun reg => ?_, ?_, ?_, ?_, ?_⟩
  · unfold registry_lookup
    rw [h12]
  · have hb : (pyLower amp.name == pyLower qhit) = true := by
      rw [show amp.name = "Ampisilin Sulbaktam" from rfl, beq_iff_eq]
      exact hhit.symm
    simp only [registry_lookup, dictGet, REGISTRY, register, dictSet,
      List.find?, hb]
    rfl
  · have hb : (pyLower amp.name == pyLower qmiss) = false := by
      rw [show amp.name = "Ampisilin Sulbaktam" from rfl, beq_eq_false_iff_ne]
      exact fun e => hmiss e.symm
    simp only [registry_lookup, dictGet, REGISTRY, register, dictSet,
      List.find?, hb]
    rfl
  · with_unfolding_all decide
  · with_unfolding_all decide

theorem C6_lookup_case_insensitive_exact_witness :
    (∀ reg, registry_lookup reg "AMPISILIN SULBAKTAM" =
      registry_lookup reg "ampisilin sulbaktam") ∧
    registry_lookup REGISTRY "AMPISILIN SULBAKTAM" = some amp ∧
    registry_lookup REGISTRY "ampisilin sülbaktam" = none ∧
    normalize_text "ampisilin  sulbaktam" = normalize_text "Ampisilin Sulbaktam" ∧
    registry_lookup REGISTRY "ampisilin  sulbaktam" = none :=
  C6_lookup_case_insensitive_exact "AMPISILIN SULBAKTAM" "ampisilin sulbaktam"
    "AMPISILIN SULBAKTAM" "ampisilin sülbaktam"
    (by with_unfolding_all decide) (by with_unfolding_all decide)
    (by with_unfolding_all decide)

lemma keys_groupInsert (k : String) (r : DoseRule)
    (acc : List (String × List DoseRule)) :
    (groupInsert k r acc).map Prod.fst =
      if k ∈ acc.map Prod.fst then acc.map Prod.fst
      else acc.map Prod.fst ++ [k] := by
  induction acc with
  | nil => simp [groupInsert]
  | cons a t ih =>
    obtain ⟨k', rs⟩ := a
    by_cases hk : k' = k
    · subst hk
      simp [groupInsert]
    · rw [show groupInsert k r ((k', rs) :: t) = (k', rs) :: groupInsert k r t
        from by simp [groupInsert, hk]]
      have hiff : k ∈ ((k', rs) :: t).map Prod.fst ↔ k ∈ t.map Prod.fst := by
        rw [List.map_cons, List.mem_cons]
        constructor
        · rintro (h | h)
          · exact absurd h.symm hk
          · exact h
        · exact Or.inr
      by_cases hm : k ∈ t.map Prod.fst
      · rw [List.map_cons, ih, if_pos hm, if_pos (hiff.mpr hm), List.map_cons]
      · rw [List.map_cons, ih, if_neg hm,
          if_neg (fun hh => hm (hiff.mp hh)), List.map_cons, List.cons_append]

lemma keys_groupRules : ∀ (rules : List DoseRule)
    (acc : List (String × List DoseRule)),
    (groupRules rules acc).map Prod.fst =
      firstSeenAux (rules.map DoseRule.indication) (acc.map Prod.fst) := by
  intro rules
  induction rules with
  | nil => intro acc; rfl
  | cons r rest ih =>
    intro acc
    rw [show groupRules (r :: rest) acc =
      groupRules rest (groupInsert r.indication r acc) from rfl]
    rw [ih, keys_groupInsert]
    rfl

lemma nodup_keys_groupInsert {k : String} {r : DoseRule}
    {acc : List (String × List DoseRule)}
    (hnd : (acc.map Prod.fst).Nodup) :
    ((groupInsert k r acc).map Prod.fst).Nodup := by
  rw [keys_groupInsert]
  by_cases hm : k ∈ acc.map Prod.fst
  · rw [if_pos hm]
    exact hnd
  · rw [if_neg hm]
    simp [List.nodup_append, hnd, hm]

lemma mem_groupInsert {k : String} {r : DoseRule}
    {acc : List (String × List DoseRule)} (hnd : (acc.map Prod.fst).Nodup)
    {g : String × List DoseRule} :
    g ∈ groupInsert k r acc ↔
      (g.1 ≠ k ∧ g ∈ acc) ∨
      (g.1 = k ∧ k ∉ acc.map Prod.fst ∧ g.2 = [r]) ∨
      (g.1 = k ∧ ∃ l, (k, l) ∈ acc ∧ g.2 = l ++ [r]) := by
  obtain ⟨g1, g2⟩ := g
  induction acc with
  | nil =>
    constructor
    · intro hg
      have heq := List.mem_singleton.mp hg
      obtain ⟨he1, he2⟩ := Prod.ext_iff.mp heq
      exact Or.inr (Or.inl ⟨he1, by simp, he2⟩)
    · rintro (⟨hne, hg⟩ | ⟨he, hni, h2⟩ | ⟨he, l, hl, h2⟩)
      · exact absurd hg (List.not_mem_nil _)
      · rw [show ((g1, g2) : String × List DoseRule) = (k, [r]) from
          Prod.ext_iff.mpr ⟨he, h2⟩]
        exact List.mem_cons_self _ _
      · exact absurd hl (List.not_mem_nil _)
  | cons a t ih =>
    obtain ⟨k', rs⟩ := a
    rw [List.map_cons, List.nodup_cons] at hnd
    obtain ⟨hk't, hndt⟩ := hnd
    by_cases hk : k' = k
    · subst hk
      rw [show groupInsert k' r ((k', rs) :: t) = (k', rs ++ [r]) :: t from by
        simp [groupInsert]]
      constructor
      · intro hg
        rcases List.mem_cons.mp hg with heq | hgt
        · obtain ⟨he1, he2⟩ := Prod.ext_iff.mp heq
          right; right
          exact ⟨he1, rs, List.mem_cons_self _ _, he2⟩
        · left
          have hne : g1 ≠ k' := by
            intro he
            exact hk't (he ▸ List.mem_map.mpr ⟨(g1, g2), hgt, rfl⟩)
          exact ⟨hne, List.mem_cons_of_mem _ hgt⟩
      · rintro (⟨hne, hg⟩ | ⟨he, hnotin, h2⟩ | ⟨he, l, hl, h2⟩)
        · rcases List.mem_cons.mp hg with heq | hgt
          · exact absurd (Prod.ext_iff.mp heq).1 hne
          · exact List.mem_cons_of_mem _ hgt
        · exact absurd (List.mem_map.mpr ⟨(k', rs), List.mem_cons_self _ _, rfl⟩)
            hnotin
        · rcases List.mem_cons.mp hl with heq | hlt
          · have hlrs : l = rs := (Prod.ext_iff.mp heq).2
            have hgeq : (g1, g2) = (k', rs ++ [r]) :=
              Prod.ext_iff.mpr ⟨he, by rw [h2, hlrs]⟩
            rw [hgeq]
            exact List.mem_cons_self _ _
          · exact absurd (List.mem_map.mpr ⟨(k', l), hlt, rfl⟩) hk't
    · rw [show groupInsert k r ((k', rs) :: t) = (k', rs) :: groupInsert k r t
        from by simp [groupInsert, hk]]
      constructor
      · intro hg
        rcases List.mem_cons.mp hg with heq | hgt
        · obtain ⟨he1, he2⟩ := Prod.ext_iff.mp heq
          left
          refine ⟨fun he => hk (he1.symm.trans he), ?_⟩
          rw [show ((g1, g2) : String × List DoseRule) = (k', rs) from heq]
          exact List.mem_cons_self _ _
        · rcases (ih hndt).mp hgt with ⟨hne, hmem⟩ | ⟨he, hni, h2⟩ |
            ⟨he, l, hl, h2⟩
          · exact Or.inl ⟨hne, List.mem_cons_of_mem _ hmem⟩
          · refine Or.inr (Or.inl ⟨he, ?_, h2⟩)
            intro hm
            rcases List.mem_cons.mp (List.map_cons Prod.fst (k', rs) t ▸ hm)
              with hkk' | hkt
            · exact hk hkk'.symm
            · exact hni hkt
          · exact Or.inr (Or.inr ⟨he, l, List.mem_cons_of_mem _ hl, h2⟩)
      · rintro (⟨hne, hg⟩ | ⟨he, hni, h2⟩ | ⟨he, l, hl, h2⟩)
        · rcases List.mem_cons.mp hg with heq | hgt
          · rw [heq]
            exact List.mem_cons_self _ _
          · exact List.mem_cons_of_mem _ ((ih hndt).mpr (Or.inl ⟨hne, hgt⟩))
        · apply List.mem_cons_of_mem
          apply (ih hndt).mpr
          refine Or.inr (Or.inl ⟨he, ?_, h2⟩)
          intro hm
          exact hni (List.map_cons Prod.fst (k', rs) t ▸
            List.mem_cons_of_mem k' hm)
        · rcases List.mem_cons.mp hl with heq | hlt
          · exact absurd (Prod.ext_iff.mp heq).1.symm hk
          · exact List.mem_cons_of_mem _
              ((ih hndt).mpr (Or.inr (Or.inr ⟨he, l, hlt, h2⟩)))

lemma groups_groupRules : ∀ (rules : List DoseRule)
    (acc : List (String × List DoseRule)),
    (acc.map Prod.fst).Nodup → ∀ g : String × List DoseRule,
    g ∈ groupRules rules acc →
    (∃ l, (g.1, l) ∈ acc ∧
      g.2 = l ++ rules.filter (fun r => r.indication == g.1)) ∨
    (g.1 ∉ acc.map Prod.fst ∧
      g.2 = rules.filter (fun r => r.indication == g.1)) := by
  intro rules
  induction rules with
  | nil =>
    intro acc hnd g hg
    left
    exact ⟨g.2, hg, by simp⟩
  | cons r rest ih =>
    intro acc hnd g hg
    rw [show groupRules (r :: rest) acc =
      groupRules rest (groupInsert r.indication r acc) from rfl] at hg
    have hfilter_eq : ∀ b : Bool, (r.indication == g.1) = b →
      (r :: rest).filter (fun x => x.indication == g.1) =
        (if b then [r] else [])
          ++ rest.filter (fun x => x.indication == g.1) := by
      intro b hb
      cases b <;> simp [List.filter_cons, hb]
    rcases ih (groupInsert r.indication r acc) (nodup_keys_groupInsert hnd) g hg
      with ⟨l', hl', h2⟩ | ⟨hni, h2⟩
    · rcases (mem_groupInsert hnd).mp hl' with ⟨hne, hmem⟩ | ⟨he, hni, hlr⟩ |
        ⟨he, l, hl, hlr⟩
      · left
        refine ⟨l', hmem, ?_⟩
        rw [h2, hfilter_eq false
          (by rw [beq_eq_false_iff_ne]; exact fun hh => hne hh.symm)]
        simp
      · right
        have he' : g.1 = r.indication := he
        have hlr' : l' = [r] := hlr
        refine ⟨he' ▸ hni, ?_⟩
        rw [h2, hlr', hfilter_eq true (by rw [beq_iff_eq]; exact he'.symm)]
        simp
      · left
        have he' : g.1 = r.indication := he
        have hlr' : l' = l ++ [r] := hlr
        refine ⟨l, he' ▸ hl, ?_⟩
        rw [h2, hlr', hfilter_eq true (by rw [beq_iff_eq]; exact he'.symm)]
        simp
    · right
      have hkeys := keys_groupInsert r.indication r acc
      have hni_acc : g.1 ∉ acc.map Prod.fst := by
        intro hm
        apply hni
        rw [hkeys]
        by_cases hrm : r.indication ∈ acc.map Prod.fst
        · rw [if_pos hrm]; exact hm
        · rw [if_neg hrm]; exact List.mem_append_left _ hm
      have hne : (r.indication == g.1) = false := by
        rw [beq_eq_false_iff_ne]
        intro he
        apply hni
        rw [hkeys]
        by_cases hrm : r.indication ∈ acc.map Prod.fst
        · rw [if_pos hrm]; exact he ▸ hrm
        · rw [if_neg hrm]
          exact List.mem_append_right _ (he ▸ List.mem_singleton.mpr rfl)
      refine ⟨hni_acc, ?_⟩
      rw [h2, hfilter_eq false hne]
      simp

lemma rules_by_indication_keys (d : Drug) :
    (d.rules_by_indication).map Prod.fst =
      firstSeen (d.rules.map DoseRule.indication) :=
  keys_groupRules d.rules []

lemma rules_by_indication_groups (d : Drug) :
    ∀ g ∈ d.rules_by_indication,
      g.2 = d.rules.filter (fun r => r.indication == g.1) := by
  intro g hg
  rcases groups_groupRules d.rules [] (by simp) g hg with ⟨l, hl, _⟩ | ⟨_, h2⟩
  · exact absurd hl (List.not_mem_nil _)
  · exact h2

lemma mem_firstSeenAux (a : String) : ∀ (l ks : List String),
    a ∈ firstSeenAux l ks ↔ a ∈ l ∨ a ∈ ks := by
  intro l
  induction l with
  | nil => intro ks; simp [firstSeenAux]
  | cons i rest ih =>
    intro ks
    rw [show firstSeenAux (i :: rest) ks =
      firstSeenAux rest (if i ∈ ks then ks else ks ++ [i]) from rfl, ih]
    by_cases hi : i ∈ ks
    · rw [if_pos hi]
      constructor
      · rintro (h | h)
        · exact Or.inl (List.mem_cons_of_mem _ h)
        · exact Or.inr h
      · rintro (h | h)
        · rcases List.mem_cons.mp h with rfl | h
          · exact Or.inr hi
          · exact Or.inl h
        · exact Or.inr h
    · rw [if_neg hi]
      constructor
      · rintro (h | h)
        · exact Or.inl (List.mem_cons_of_mem _ h)
        · rcases List.mem_append.mp h with h | h
          · exact Or.inr h
          · rw [List.mem_singleton.mp h]
            exact Or.inl (List.mem_cons_self _ _)
      · rintro (h | h)
        · rcases List.mem_cons.mp h with rfl | h
          · exact Or.inr (List.mem_append_right _ (List.mem_singleton.mpr rfl))
          · exact Or.inl h
        · exact Or.inr (List.mem_append_left _ h)

lemma mem_rules_by_indication {d : Drug} {r : DoseRule} (hr : r ∈ d.rules) :
    ∃ g ∈ d.rules_by_indication, g.1 = r.indication ∧ r ∈ g.2 := by
  have hkey : r.indication ∈ (d.rules_by_indication).map Prod.fst := by
    rw [rules_by_indication_keys]
    exact (mem_firstSeenAux _ _ _).mpr
      (Or.inl (List.mem_map.mpr ⟨r, hr, rfl⟩))
  rcases List.mem_map.mp hkey with ⟨g, hg, hgi⟩
  refine ⟨g, hg, hgi, ?_⟩
  rw [rules_by_indication_groups d g hg]
  exact List.mem_filter.mpr ⟨hr, by rw [hgi]; exact beq_self_eq_true _⟩

lemma mem_concatMap {α β : Type} {f : α → List β} {b : β} :
    ∀ {l : List α}, b ∈ concatMap f l ↔ ∃ a ∈ l, b ∈ f a := by
  intro l
  induction l with
  | nil => simp [concatMap]
  | cons a t ih =>
    rw [show concatMap f (a :: t) = f a ++ concatMap f t from rfl]
    rw [List.mem_append, ih]
    constructor
    · rintro (h | ⟨x, hx, hb⟩)
      · exact ⟨a, List.mem_cons_self _ _, h⟩
      · exact ⟨x, List.mem_cons_of_mem _ hx, hb⟩
    · rintro ⟨x, hx, hb⟩
      rcases List.mem_cons.mp hx with rfl | hx
      · exact Or.inl hb
      · exact Or.inr ⟨x, hx, hb⟩

/-- C5: the report groups rules by indication in first-seen order (the group
keys are the first-seen indication sequence, each group holds exactly that
indication's rules in registration order), and a drug with two "general"
rules (100 and 200 mg/kg/day) yields one indication header followed by the
two descriptive+computed blocks in registration order. -/
theorem C5_report_grouping :
    (∀ d : Drug, (d.rules_by_indication).map Prod.fst =
      firstSeen (d.rules.map DoseRule.indication)) ∧
    (∀ d : Drug, ∀ g ∈ d.rules_by_indication,
      g.2 = d.rules.filter (fun r => r.indication == g.1)) ∧
    compute_text_reg (register c5Drug []) 10 "x" =
      "İLAÇ: X\nKilo: 10 kg\n\nGENERAL:" ++
      "\n  100 mg/kg/gün, IV, q6h\n   → 250 mg/doz\n   → 1000 mg/gün" ++
      "\n  200 mg/kg/gün, IV, q6h\n   → 500 mg/doz\n   → 2000 mg/gün" :=
  ⟨rules_by_indication_keys, rules_by_indication_groups,
    by with_unfolding_all decide⟩

theorem C5_report_grouping_witness :
    (c5Drug.rules_by_indication).map Prod.fst =
      firstSeen (c5Drug.rules.map DoseRule.indication) ∧
    ("general", c5Drug.rules).2 =
      c5Drug.rules.filter
        (fun r => r.indication == ("general", c5Drug.rules).1) :=
  ⟨C5_report_grouping.1 c5Drug,
    C5_report_grouping.2.1 c5Drug ("general", c5Drug.rules)
      (by with_unfolding_all decide)⟩

/-- C8: a rule with none of the four dosing-basis fields set produces no
computed-quantity lines (`calc_rule` returns `[]`), while the report still
contains the rule's (indented) descriptive line; no error is raised
anywhere. -/
theorem C8_missing_basis_silent (r : DoseRule) (pt : Patient)
    (reg : List (String × Drug)) (w : ℚ) (q : String) (d : Drug)
    (h1 : r.mg_per_kg_per_day = none) (h2 : r.mg_per_kg_per_dose = none)
    (h3 : r.mg_per_m2_per_day = none) (h4 : r.mg_per_m2_per_dose = none)
    (hd : registry_lookup reg q = some d) (hr : r ∈ d.rules) :
    calc_rule r pt = [] ∧
    compute_text_reg reg w q = String.intercalate "\n" (compute_lines d w) ∧
    ("  " ++ r.describe) ∈ compute_lines d w := by
  refine ⟨?_, ?_, ?_⟩
  · simp only [calc_rule, dose_quantities, h1]
  · unfold compute_text_reg
    rw [hd]
  · obtain ⟨g, hg, hgi, hrg⟩ := mem_rules_by_indication hr
    unfold compute_lines
    apply List.mem_append_right
    apply mem_concatMap.mpr
    refine ⟨g, hg, ?_⟩
    apply List.mem_cons_of_mem
    apply mem_concatMap.mpr
    exact ⟨r, hrg, List.mem_cons_self _ _⟩

theorem C8_missing_basis_silent_witness :
    calc_rule c8Rule (Patient.mk 10 none) = [] ∧
    compute_text_reg (register c8Drug []) 10 "bos" =
      String.intercalate "\n" (compute_lines c8Drug 10) ∧
    ("  " ++ c8Rule.describe) ∈ compute_lines c8Drug 10 :=
  C8_missing_basis_silent c8Rule (Patient.mk 10 none) (register c8Drug [])
    10 "bos" c8Drug rfl rfl rfl rfl (by with_unfolding_all decide)
    (by with_unfolding_all decide)

/-- C2 counterexample: after normalization, "günde2x3" begins with the
"günde" token followed by the contiguous digit run "2", but the parser
returns 23.0 (the concatenation of every digit in the string), not 2.0. -/
theorem C2_counterexample_gunde_run :
    parse_frequency_to_doses_per_day "günde2x3" = some 23 ∧
    parse_frequency_to_doses_per_day "günde2x3" ≠ some 2 := by
  with_unfolding_all decide

/-- C2 (amended): the parser recognizes exactly the three forms on the
normalized (trimmed, lower-cased, space-free) input, and nothing else:
a string beginning with the "günde" token yields the number formed by
concatenating all digit characters found anywhere in the string (`none` if
there is no digit); "od" and "q24h" yield exactly 1.0; "q<N>h" with N a
positive integer yields 24/N; and every string matching none of these forms
— "q0h", "bid", and all others — yields `none`, with no division by zero. -/
theorem C2_amended_parse_frequency :
    (∀ s : String, "günde".data.isPrefixOf (normalizeFreq s.data) = true →
      parse_frequency_to_doses_per_day s =
        (if s.data.filter pyIsDigit = [] then none
         else some ((digitsToNat (s.data.filter pyIsDigit) : ℚ)))) ∧
    (∀ s : String,
      normalizeFreq s.data = "od".data ∨ normalizeFreq s.data = "q24h".data →
      parse_frequency_to_doses_per_day s = some 1) ∧
    (∀ s : String, ∀ ds : List Char,
      normalizeFreq s.data = 'q' :: (ds ++ ['h']) → ds ≠ [] →
      (∀ c ∈ ds, pyIsDigit c = true) → 0 < digitsToNat ds →
      parse_frequency_to_doses_per_day s =
        some (24 / (digitsToNat ds : ℚ))) ∧
    (∀ s : String,
      "günde".data.isPrefixOf (normalizeFreq s.data) = false →
      normalizeFreq s.data ≠ "od".data →
      (∀ ds : List Char, normalizeFreq s.data = 'q' :: (ds ++ ['h']) →
        ds = [] ∨ ¬(∀ c ∈ ds, pyIsDigit c = true) ∨ digitsToNat ds = 0) →
      parse_frequency_to_doses_per_day s = none) ∧
    parse_frequency_to_doses_per_day "q6h" = some 4 ∧
    parse_frequency_to_doses_per_day "q8h" = some 3 ∧
    parse_frequency_to_doses_per_day "od" = some 1 ∧
    parse_frequency_to_doses_per_day "q24h" = some 1 ∧
    parse_frequency_to_doses_per_day "günde3" = some 3 ∧
    parse_frequency_to_doses_per_day "q0h" = none ∧
    parse_frequency_to_doses_per_day "bid" = none := by
  refine ⟨?_, ?_, ?_, ?_,
    by with_unfolding_all decide, by with_unfolding_all decide,
    by with_unfolding_all decide, by with_unfolding_all decide,
    by with_unfolding_all decide, by with_unfolding_all decide,
    by with_unfolding_all decide⟩
  · intro s h
    exact parse_gunde_norm s.data h
  · intro s h
    unfold parse_frequency_to_doses_per_day
    rcases h with h | h <;> rw [h] <;> with_unfolding_all decide
  · intro s ds hnorm hne hdig hpos
    unfold parse_frequency_to_doses_per_day
    rw [hnorm]
    exact parseCore_qNh ds hne hdig hpos
  · intro s hg hod hq
    exact parseCore_none (normalizeFreq s.data) hg hod hq

theorem C2_amended_parse_frequency_witness :
    parse_frequency_to_doses_per_day "günde 2 x 3" =
      (if "günde 2 x 3".data.filter pyIsDigit = [] then none
       else some ((digitsToNat ("günde 2 x 3".data.filter pyIsDigit) : ℚ))) ∧
    parse_frequency_to_doses_per_day " OD " = some 1 ∧
    parse_frequency_to_doses_per_day "q18h" =
      some (24 / (digitsToNat ['1', '8'] : ℚ)) ∧
    parse_frequency_to_doses_per_day "bid" = none :=
  ⟨C2_amended_parse_frequency.1 "günde 2 x 3" (by with_unfolding_all decide),
   C2_amended_parse_frequency.2.1 " OD "
     (Or.inl (by with_unfolding_all decide)),
   C2_amended_parse_frequency.2.2.1 "q18h" ['1', '8']
     (by with_unfolding_all decide) (by decide) (by decide) (by decide),
   C2_amended_parse_frequency.2.2.2.1 "bid" (by with_unfolding_all decide)
     (by with_unfolding_all decide)
     (fun ds h => absurd h (by
       rw [show normalizeFreq "bid".data = ['b', 'i', 'd'] from by
         with_unfolding_all decide]
       intro he
       exact absurd (List.head_eq_of_cons_eq he) (by decide)))⟩

/-- C10: for every input string whose normalization (trim, lower-case,
remove spaces) begins with "günde", the parser returns the number formed by
concatenating every digit character found anywhere in the string — e.g.
"günde 2 x 3" parses to 23.0 — and `none` when the string has no digit. -/
theorem C10_gunde_digits_anywhere (l : List Char)
    (h : "günde".data.isPrefixOf (normalizeFreq l) = true) :
    parse_frequency_to_doses_per_day (String.mk l) =
      (if l.filter pyIsDigit = [] then none
       else some ((digitsToNat (l.filter pyIsDigit) : ℚ))) ∧
    parse_frequency_to_doses_per_day "günde 2 x 3" = some 23 ∧
    parse_frequency_to_doses_per_day "günde x" = none := by
  refine ⟨?_, by with_unfolding_all decide, by with_unfolding_all decide⟩
  unfold parse_frequency_to_doses_per_day
  rw [show (String.mk l).data = l from rfl]
  unfold parseCore
  rw [if_pos h]
  simp only [filter_digits_normalizeFreq l]

theorem C10_gunde_digits_anywhere_witness :
    parse_frequency_to_doses_per_day (String.mk "günde3".data) =
      (if "günde3".data.filter pyIsDigit = [] then none
       else some ((digitsToNat ("günde3".data.filter pyIsDigit) : ℚ))) ∧
    parse_frequency_to_doses_per_day "günde 2 x 3" = some 23 ∧
    parse_frequency_to_doses_per_day "günde x" = none :=
  C10_gunde_digits_anywhere "günde3".data (by with_unfolding_all decide)

end Doz
